import Mathlib

/-!
Verification development for the `tap-prometheus` singer tap
(`tap_prometheus/__init__.py`).

Modelling conventions:
* Machine floats produced by `astype(float)` are modelled as exact rationals
  (`ℚ`); the pandas `NaN` value is modelled as `none : Option ℚ`.
* Epoch timestamps (`int(...timestamp())`, `iterator_unixtime`, ...) are
  unbounded integers, as Python ints are.
* The Prometheus client is a parameter `fetch : ℤ → ℤ → List (List ℚ)`
  mapping a window `[start, end]` to the list of returned timeseries, each
  given by the list of its sample values (`client.range_query(...).timeseries`).
* Side effects on the singer sink (`write_record`, `write_bookmark`,
  `write_state`) are recorded in an event trace.
* The in-memory bookmark written by `singer.write_bookmark` is tracked as the
  epoch value `iterator_unixtime + period_seconds`; the
  `strftime`/`strptime` string layer applied to it by the source is modelled
  separately by `formatTs`/`parseTs` below.
-/

namespace TapPrometheus

/-- The constant `DATE_FORMAT` from the source (line 19). -/
def DATE_FORMAT : String := "%Y-%m-%dT%H:%M:%SZ"

/-- The single stream written by `query_metric` (line 120). -/
def stream_name : String := "aggregated_metric_history"

/-- Python `int()` applied to a real-valued timestamp: truncation toward
zero, as in `current_unixtime = int(extraction_time.timestamp())`. -/
def intTrunc (q : ℚ) : ℤ := q.num.tdiv (q.den : ℤ)

/-- Model of `dataframe.max()['values']` on a single float column: pandas skips `NaN`
and returns `NaN` (modelled as `none`) on an empty column; on a nonempty
column it folds the binary maximum over the values. -/
def pandasMax (values : List ℚ) : Option ℚ :=
  match values with
  | [] => none
  | v :: vs => some (vs.foldl max v)

/-- Model of `dataframe.min()['values']`, analogous to `pandasMax`. -/
def pandasMin (values : List ℚ) : Option ℚ :=
  match values with
  | [] => none
  | v :: vs => some (vs.foldl min v)

/-- Model of `dataframe.mean()['values']`: sum of the values divided by their count,
`NaN` (`none`) on an empty column. -/
def pandasMean (values : List ℚ) : Option ℚ :=
  match values with
  | [] => none
  | v :: vs => some ((v :: vs).sum / ((v :: vs).length : ℚ))

/-- Model of `aggregate(aggregation, dataframe)` (source lines 185-194): dispatches on
the aggregation name in the order `max`, `min`, `avg` and raises
`Exception("Aggregation method not implemented: ...")` otherwise. -/
def aggregate (aggregation : String) (values : List ℚ) : Except String (Option ℚ) :=
  if aggregation = "max" then .ok (pandasMax values)
  else if aggregation = "min" then .ok (pandasMin values)
  else if aggregation = "avg" then .ok (pandasMean values)
  else .error ("Aggregation method not implemented: " ++ aggregation)

/-- The `period == 'day'` dispatch of `query_metric` (source lines 130-133). -/
def period_seconds (period : String) : Except String ℤ :=
  if period = "day" then .ok 86400
  else .error ("Period is not supported: " ++ period)

/-- One observable side effect of `query_metric` on the singer sink. -/
inductive Event where
  /-- A call `client.range_query(query, start=..., end=..., step=...)` (lines 138-143). -/
  | rangeQuery (query : String) (startTs endTs step : ℤ)
  /-- A call `singer.write_record(stream_name, rec, time_extracted=extraction_time)`
  (lines 161-165); `date` is the record's `"date"` field (the window start). -/
  | record (stream : String) (date : ℤ) (metric : String) (aggregation : String)
      (value : Option ℚ) (timeExtracted : ℚ)
  /-- A call `singer.write_bookmark(Context.state, name, 'start_date', ...)`
  (lines 169-174); `ts` is the epoch value of the formatted timestamp,
  i.e. `iterator_unixtime + period_seconds`. -/
  | bookmark (metric : String) (ts : ℤ)
  /-- A call `singer.write_state(Context.state)` (lines 178 and 182). -/
  | persistState
deriving DecidableEq

/-- Result of one `query_metric` call: the emitted event trace, the final
value of `Context.new_counts[stream_name]`, the final in-memory bookmark for
this metric (`none` when no `write_bookmark` ran and none existed before),
and the exception message if one was raised. -/
structure QueryOutcome where
  events : List Event
  newCount : ℕ
  bookmark : Option ℤ
  error : Option String
deriving DecidableEq

/-- Fuel used to run the `while` loop of `query_metric`: one unit per
iteration plus one for the final failing guard check.  For `0 < p` the loop
performs exactly `max 0 ⌊(now - c) / p⌋` iterations, so this fuel is always
sufficient (`windowStartsAux_eq` below); for `p ≤ 0` the Python loop would
not terminate and the model is not used. -/
def loopFuel (c p now : ℤ) : ℕ := ((now - c) / p).toNat + 1

/-- The `while iterator_unixtime + period_seconds <= current_unixtime` loop
of `query_metric` (source lines 135-180), one fuel unit per iteration.
Arguments after the colon: remaining fuel, `iterator_unixtime`,
`Context.new_counts[stream_name]`, current in-memory bookmark. -/
def query_metric_loop (fetch : ℤ → ℤ → List (List ℚ)) (name query aggregation : String)
    (step p now : ℤ) (extraction : ℚ) :
    ℕ → ℤ → ℕ → Option ℤ → QueryOutcome
  | 0, _, cnt, bm => ⟨[], cnt, bm, none⟩
  | fuel + 1, iterator, cnt, bm =>
    if iterator + p ≤ now then
      match fetch iterator (iterator + p) with
      | [] =>
        -- `ts_data.timeseries[0]` raises IndexError on an empty list (line 145)
        ⟨[Event.rangeQuery query iterator (iterator + p) step], cnt, bm,
          some "IndexError: list index out of range"⟩
      | ts :: _ =>
        match aggregate aggregation ts with
        | .error e => ⟨[Event.rangeQuery query iterator (iterator + p) step], cnt, bm, some e⟩
        | .ok v =>
          let rest := query_metric_loop fetch name query aggregation step p now extraction
            fuel (iterator + p) (cnt + 1) (some (iterator + p))
          ⟨Event.rangeQuery query iterator (iterator + p) step ::
            Event.record stream_name iterator name aggregation v extraction ::
            Event.bookmark name (iterator + p) ::
            ((if (cnt + 1) % 100 = 0 then [Event.persistState] else []) ++ rest.events),
            rest.newCount, rest.bookmark, rest.error⟩
    else ⟨[], cnt, bm, none⟩

/-- Model of `query_metric(client, name, query, aggregation, period, step)` (source
lines 119-182).  `bookmark_unixtime` is the epoch value of the resolved
bookmark (line 126), `extraction` the instant captured by
`singer.utils.now()` (line 127), `initCount` the current
`Context.new_counts[stream_name]`, `bm0` the pre-existing in-memory bookmark
entry for this metric.  The final `singer.write_state` (line 182) runs only
when no exception was raised. -/
def query_metric (fetch : ℤ → ℤ → List (List ℚ)) (name query aggregation period : String)
    (step : ℤ) (bookmark_unixtime : ℤ) (extraction : ℚ) (initCount : ℕ)
    (bm0 : Option ℤ) : QueryOutcome :=
  let now := intTrunc extraction
  match period_seconds period with
  | .error e => ⟨[], initCount, bm0, some e⟩
  | .ok p =>
    let r := query_metric_loop fetch name query aggregation step p now extraction
      (loopFuel bookmark_unixtime p now) bookmark_unixtime initCount bm0
    match r.error with
    | some _ => r
    | none => ⟨r.events ++ [Event.persistState], r.newCount, r.bookmark, none⟩

/-- The sequence of window start timestamps visited by the loop of
`query_metric`: same guard (`iterator + p ≤ now`) and same increment
(`iterator += p`) as `query_metric_loop`, with the side effects stripped. -/
def windowStartsAux (p now : ℤ) : ℕ → ℤ → List ℤ
  | 0, _ => []
  | fuel + 1, it => if it + p ≤ now then it :: windowStartsAux p now fuel (it + p) else []

/-- The window starts processed by `query_metric` when started from
checkpoint `c` with period `p` and wall clock `now`. -/
def windowStarts (c p now : ℤ) : List ℤ := windowStartsAux p now (loopFuel c p now) c

/-- A metric entry of `Context.config['metrics']` (source lines 106-111). -/
structure MetricSpec where
  name : String
  query : String
  aggregation : String
  period : String
  step : ℤ
deriving DecidableEq

/-- Result of the metric loop of `sync` (source lines 106-116). -/
structure SyncOutcome where
  events : List Event
  newCount : ℕ
  state : String → Option ℤ
  error : Option String

/-- The `for metric in Context.config['metrics']` loop of `sync` (lines
106-116).  `checkpointOf` resolves `get_bookmark` + `strptime` for each
metric (persisted bookmark, or the configured `start_date`); `extractionOf i`
is the wall clock observed by `singer.utils.now()` during the `i`-th metric.
`Context.new_counts[stream_name]` (`cnt`) is threaded through all metrics; an
exception aborts the whole run. -/
def syncMetrics (fetch : ℤ → ℤ → List (List ℚ)) (checkpointOf : String → ℤ)
    (extractionOf : ℕ → ℚ) :
    List MetricSpec → ℕ → ℕ → (String → Option ℤ) → SyncOutcome
  | [], _, cnt, st => ⟨[], cnt, st, none⟩
  | m :: ms, i, cnt, st =>
    let r := query_metric fetch m.name m.query m.aggregation m.period m.step
      (checkpointOf m.name) (extractionOf i) cnt (st m.name)
    let st' := fun s => if s = m.name then r.bookmark else st s
    match r.error with
    | some e => ⟨r.events, r.newCount, st', some e⟩
    | none =>
      let rest := syncMetrics fetch checkpointOf extractionOf ms (i + 1) r.newCount st'
      ⟨r.events ++ rest.events, rest.newCount, rest.state, rest.error⟩

/-- The writes `Context.updated_counts[stream_name] = 0` for every catalog stream, as
done at the top of `sync` (source lines 99-104).  No other line of the
source ever writes to `Context.updated_counts`. -/
def init_updated_counts (streams : List String) : String → Option ℕ :=
  streams.foldl (fun f s => fun x => if x = s then some 0 else f x) (fun _ => none)

/-- Result of a full `sync(client)` call. -/
structure SyncResult where
  outcome : SyncOutcome
  updated_counts : String → Option ℕ

/-- Model of `sync(client)` (source lines 97-116): writes schemas and zeroes both
counters for every catalog stream, then processes the configured metrics in
order starting from `Context.new_counts[stream_name] = 0`. -/
def sync (streams : List String) (fetch : ℤ → ℤ → List (List ℚ))
    (checkpointOf : String → ℤ) (extractionOf : ℕ → ℚ)
    (metrics : List MetricSpec) : SyncResult :=
  ⟨syncMetrics fetch checkpointOf extractionOf metrics 0 0 (fun _ => none),
    init_updated_counts streams⟩

/-!
Model of the `datetime` calendar functions used on lines 126 and 173 of the
source: `datetime.utcfromtimestamp(..).strftime(DATE_FORMAT)` when writing a
bookmark and `int(datetime.strptime(bookmark, DATE_FORMAT)
.replace(tzinfo=pytz.UTC).timestamp())` when resolving one.  The calendar
arithmetic follows CPython's `datetime` module (`_ymd2ord`, `_ord2ymd`,
`_is_leap`, `_days_before_year`/`_days_before_month`); rendering follows
glibc `strftime` (`%Y` unpadded, two-digit zero-padded `%m %d %H %M %S`);
parsing follows CPython `_strptime` (`%Y` is exactly four digits) plus the
range validation of the `datetime` constructor.  CPython's `datetime` is
restricted to calendar years 1 through 9999.
-/

/-- CPython `_is_leap(year)`. -/
def is_leap (y : ℤ) : Bool := decide (y % 4 = 0 ∧ (y % 100 ≠ 0 ∨ y % 400 = 0))

/-- CPython `_DAYS_IN_MONTH[m]` (1-indexed month, February un-adjusted). -/
def DAYS_IN_MONTH (m : ℤ) : ℤ :=
  ([31, 28, 31, 30, 31, 30, 31, 31, 30, 31, 30, 31] : List ℤ).getD (m.toNat - 1) 0

/-- CPython `_DAYS_BEFORE_MONTH[m]` (1-indexed, days in a non-leap year
before month `m`). -/
def DAYS_BEFORE_MONTH (m : ℤ) : ℤ :=
  ([0, 31, 59, 90, 120, 151, 181, 212, 243, 273, 304, 334] : List ℤ).getD (m.toNat - 1) 0

/-- CPython `_days_before_year(year)`: days between 0001-01-01 and
January 1st of `year`. -/
def days_before_year (y : ℤ) : ℤ :=
  (y - 1) * 365 + (y - 1) / 4 - (y - 1) / 100 + (y - 1) / 400

/-- CPython `_ymd2ord(year, month, day)`: proleptic Gregorian ordinal, with
0001-01-01 as ordinal 1. -/
def ymd2ord (y m d : ℤ) : ℤ :=
  days_before_year y + DAYS_BEFORE_MONTH m + (if 2 < m ∧ is_leap y then 1 else 0) + d

/-- The month-finding step of CPython `_ord2ymd`: from the leap flag and the
0-based day of the year, guess `month = (n + 50) >> 5` and correct it once if
the guess was one too high. -/
def find_month_day (leap : Bool) (r : ℤ) : ℤ × ℤ :=
  let month := (r + 50) / 32
  let preceding := DAYS_BEFORE_MONTH month + (if 2 < month ∧ leap then 1 else 0)
  if r < preceding then
    let month' := month - 1
    let preceding' := preceding - (DAYS_IN_MONTH month' + (if month' = 2 ∧ leap then 1 else 0))
    (month', r - preceding' + 1)
  else (month, r - preceding + 1)

/-- CPython `_ord2ymd(n)`: the inverse Gregorian conversion, via the
400/100/4/1-year `divmod` chain. -/
def ord2ymd (n : ℤ) : ℤ × ℤ × ℤ :=
  let n0 := n - 1
  let n400 := n0 / 146097
  let r1 := n0 % 146097
  let n100 := r1 / 36524
  let r2 := r1 % 36524
  let n4 := r2 / 1461
  let r3 := r2 % 1461
  let n1 := r3 / 365
  let r4 := r3 % 365
  let year := n400 * 400 + n100 * 100 + n4 * 4 + n1 + 1
  if n1 = 4 ∨ n100 = 4 then (year - 1, 12, 31)
  else
    let leap : Bool := decide (n1 = 3 ∧ (n4 ≠ 24 ∨ n100 = 3))
    let md := find_month_day leap r4
    (year, md.1, md.2)

/-- A broken-down UTC instant, as held by a `datetime` object. -/
structure Civil where
  year : ℤ
  month : ℤ
  day : ℤ
  hour : ℤ
  minute : ℤ
  second : ℤ
deriving DecidableEq

/-- The value `ymd2ord 1970 1 1`: the ordinal of the Unix epoch. -/
def EPOCH_ORD : ℤ := 719163

/-- Model of `datetime.utcfromtimestamp(ts)` for a whole-second `ts`: epoch plus
`ts` seconds in the proleptic Gregorian calendar; `none` models the
`OverflowError`/`ValueError` raised when the result falls outside
`datetime`'s year range 1..9999 (ordinals 1..3652059). -/
def utcfromtimestamp (ts : ℤ) : Option Civil :=
  let ordinal := EPOCH_ORD + ts / 86400
  if 1 ≤ ordinal ∧ ordinal ≤ 3652059 then
    let ymd := ord2ymd ordinal
    let sod := ts % 86400
    some ⟨ymd.1, ymd.2.1, ymd.2.2, sod / 3600, sod % 3600 / 60, sod % 60⟩
  else none

/-- The decimal digit character for `k % 10`. -/
def digitChar (k : ℤ) : Char := Char.ofNat (48 + k.toNat)

/-- glibc `%m`/`%d`/`%H`/`%M`/`%S`: two digits, zero padded. -/
def pad2 (n : ℤ) : List Char := [digitChar (n / 10), digitChar (n % 10)]

/-- glibc `%Y`: the year in decimal without zero padding (a `datetime` year
is at most 9999, so at most four digits arise). -/
def formatYear (y : ℤ) : List Char :=
  if y < 10 then [digitChar y]
  else if y < 100 then [digitChar (y / 10), digitChar (y % 10)]
  else if y < 1000 then [digitChar (y / 100), digitChar (y / 10 % 10), digitChar (y % 10)]
  else [digitChar (y / 1000), digitChar (y / 100 % 10), digitChar (y / 10 % 10), digitChar (y % 10)]

/-- Rendering `.strftime('%Y-%m-%dT%H:%M:%SZ')` of a broken-down instant. -/
def formatCivil (c : Civil) : String :=
  ⟨formatYear c.year ++ '-' :: pad2 c.month ++ '-' :: pad2 c.day ++
    'T' :: pad2 c.hour ++ ':' :: pad2 c.minute ++ ':' :: pad2 c.second ++ ['Z']⟩

/-- Model of `datetime.utcfromtimestamp(ts).strftime(DATE_FORMAT)`: the bookmark
string written for epoch second `ts` (line 173 of the source). -/
def formatTs (ts : ℤ) : Option String := (utcfromtimestamp ts).map formatCivil

/-- The numeric value of a decimal digit character, `none` otherwise. -/
def digitVal (c : Char) : Option ℤ :=
  if 48 ≤ c.toNat ∧ c.toNat ≤ 57 then some ((c.toNat : ℤ) - 48) else none

/-- Parse two decimal digit characters. -/
def parse2 (a b : Char) : Option ℤ := do
  let x ← digitVal a
  let y ← digitVal b
  some (10 * x + y)

/-- Parse four decimal digit characters (CPython `_strptime` matches `%Y`
as exactly four digits). -/
def parse4 (a b c d : Char) : Option ℤ := do
  let x1 ← digitVal a
  let x2 ← digitVal b
  let x3 ← digitVal c
  let x4 ← digitVal d
  some (1000 * x1 + 100 * x2 + 10 * x3 + x4)

/-- Model of `int(datetime.strptime(s, DATE_FORMAT).replace(tzinfo=pytz.UTC)
.timestamp())` (line 126 of the source): match the fixed layout
`YYYY-MM-DDTHH:MM:SSZ`, validate the fields as the `datetime` constructor
does, and convert back to an epoch second. -/
def parseTs (s : String) : Option ℤ :=
  match s.data with
  | [a, b, c, d, '-', e, f, '-', g, h, 'T', i, j, ':', k, l, ':', m, o, 'Z'] => do
    let y ← parse4 a b c d
    let mo ← parse2 e f
    let dy ← parse2 g h
    let hh ← parse2 i j
    let mi ← parse2 k l
    let ss ← parse2 m o
    if 1 ≤ y ∧ y ≤ 9999 ∧ 1 ≤ mo ∧ mo ≤ 12 ∧
        1 ≤ dy ∧ dy ≤ DAYS_IN_MONTH mo + (if mo = 2 ∧ is_leap y then 1 else 0) ∧
        0 ≤ hh ∧ hh < 24 ∧ 0 ≤ mi ∧ mi < 60 ∧ 0 ≤ ss ∧ ss < 60 then
      some ((ymd2ord y mo dy - EPOCH_ORD) * 86400 + hh * 3600 + mi * 60 + ss)
    else none
  | _ => none

/-- Is this event a `singer.write_state` call? -/
def isPersist : Event → Bool
  | Event.persistState => true
  | _ => false

/-- For each `write_state` event in the trace, the number of records of
metric `m` emitted strictly before it (accumulator starts at `k`). -/
def persistRecordPositionsAux (m : String) : List Event → ℕ → List ℕ
  | [], _ => []
  | Event.record _ _ name _ _ _ :: rest, k =>
      persistRecordPositionsAux m rest (if name = m then k + 1 else k)
  | Event.persistState :: rest, k => k :: persistRecordPositionsAux m rest k
  | _ :: rest, k => persistRecordPositionsAux m rest k

/-- For each `write_state` event in the trace, how many records of metric `m`
had been emitted before it. -/
def persistRecordPositions (m : String) (events : List Event) : List ℕ :=
  persistRecordPositionsAux m events 0

/-- Is this event a record emitted for metric `m`? -/
def isRecordOf (m : String) : Event → Bool
  | Event.record _ _ name _ _ _ => name = m
  | _ => false

/-! ### The window sequence of the `query_metric` loop -/

theorem windowStartsAux_eq (p now : ℤ) (hp : 0 < p) :
    ∀ (fuel : ℕ) (it : ℤ), ((now - it) / p).toNat < fuel →
      windowStartsAux p now fuel it =
        (List.range ((now - it) / p).toNat).map (fun i : ℕ => it + p * (i : ℤ)) := by
  intro fuel
  induction fuel with
  | zero => intro it h; omega
  | succ fuel ih =>
    intro it h
    by_cases hg : it + p ≤ now
    · have h1 : 1 ≤ (now - it) / p := by
        rw [Int.le_ediv_iff_mul_le hp]; omega
      have hstep : (now - (it + p)) / p = (now - it) / p - 1 := by
        have harg : now - (it + p) = (now - it) + (-1) * p := by ring
        rw [harg, Int.add_mul_ediv_right _ _ (ne_of_gt hp)]; ring
      have hm : ((now - it) / p).toNat = ((now - (it + p)) / p).toNat + 1 := by omega
      have ihm : ((now - (it + p)) / p).toNat < fuel := by omega
      rw [windowStartsAux, if_pos hg, ih (it + p) ihm, hm, List.range_succ_eq_map,
        List.map_cons, List.map_map]
      refine congrArg₂ _ (by simp) ?_
      refine congrArg₂ _ ?_ rfl
      funext i
      simp only [Function.comp_apply, Nat.succ_eq_add_one]
      push_cast
      ring
    · have h0 : (now - it) / p < 1 := by
        rw [Int.ediv_lt_iff_lt_mul hp]; omega
      have : ((now - it) / p).toNat = 0 := by omega
      rw [windowStartsAux, if_neg hg, this]
      simp

theorem windowStarts_eq (c p now : ℤ) (hp : 0 < p) :
    windowStarts c p now = (List.range ((now - c) / p).toNat).map (fun i : ℕ => c + p * (i : ℤ)) :=
  windowStartsAux_eq p now hp _ c (Nat.lt_succ_self _)

theorem windowStarts_length (c p now : ℤ) (hp : 0 < p) :
    (windowStarts c p now).length = ((now - c) / p).toNat := by
  rw [windowStarts_eq c p now hp]; simp

theorem windowStarts_mem (c p now : ℤ) (hp : 0 < p) {w : ℤ} :
    w ∈ windowStarts c p now ↔
      ∃ i : ℕ, i < ((now - c) / p).toNat ∧ w = c + p * i := by
  rw [windowStarts_eq c p now hp]
  simp only [List.mem_map, List.mem_range]
  exact ⟨fun ⟨i, hi, he⟩ => ⟨i, hi, he.symm⟩, fun ⟨i, hi, he⟩ => ⟨i, hi, he.symm⟩⟩

theorem windowStarts_mem_bound (c p now : ℤ) (hp : 0 < p) :
    ∀ w ∈ windowStarts c p now, w + p ≤ now := by
  intro w hw
  obtain ⟨i, hi, rfl⟩ := (windowStarts_mem c p now hp).mp hw
  have he : 0 ≤ (now - c) / p := by omega
  have hcast : (((now - c) / p).toNat : ℤ) = (now - c) / p := Int.toNat_of_nonneg he
  have h1 : (i : ℤ) + 1 ≤ (now - c) / p := by
    have := hi
    omega
  have h2 : p * ((i : ℤ) + 1) ≤ p * ((now - c) / p) :=
    mul_le_mul_of_nonneg_left h1 (le_of_lt hp)
  have h3 : p * ((now - c) / p) ≤ now - c := by
    rw [mul_comm]
    exact Int.ediv_mul_le _ (ne_of_gt hp)
  have : c + p * (i : ℤ) + p = c + p * ((i : ℤ) + 1) := by ring
  omega

theorem windowStarts_getD (c p now : ℤ) (hp : 0 < p) {i : ℕ}
    (hi : i < (windowStarts c p now).length) :
    (windowStarts c p now).getD i 0 = c + p * i := by
  rw [windowStarts_length c p now hp] at hi
  rw [windowStarts_eq c p now hp, List.getD_eq_getElem?_getD, List.getElem?_map,
    List.getElem?_range hi]
  rfl

theorem windowStarts_drop (c p now : ℤ) (hp : 0 < p) (k : ℕ) :
    windowStarts (c + p * k) p now = (windowStarts c p now).drop k := by
  have hstep : (now - (c + p * k)) / p = (now - c) / p - k := by
    have harg : now - (c + p * k) = (now - c) + (-(k : ℤ)) * p := by ring
    rw [harg, Int.add_mul_ediv_right _ _ (ne_of_gt hp)]; ring
  rw [windowStarts_eq _ p now hp, windowStarts_eq c p now hp, hstep]
  by_cases hk : k ≤ ((now - c) / p).toNat
  · have hsplit : ((now - c) / p).toNat = k + (((now - c) / p - k).toNat) := by omega
    rw [hsplit, List.range_add, List.map_append]
    have hlen : ((List.range k).map (fun i : ℕ => c + p * (i : ℤ))).length = k := by simp
    rw [List.drop_left' hlen, List.map_map]
    refine congrArg₂ _ ?_ rfl
    funext i
    simp only [Function.comp_apply]
    push_cast
    ring
  · have h1 : ((now - c) / p - k).toNat = 0 := by omega
    have h2 : (((List.range ((now - c) / p).toNat).map (fun i : ℕ => c + p * (i : ℤ))).length) ≤ k := by
      simp; omega
    rw [h1, List.drop_eq_nil_of_le h2]
    simp

theorem windowStarts_take_drop (c p now : ℤ) (hp : 0 < p) (k : ℕ) :
    (windowStarts c p now).take k ++ windowStarts (c + p * k) p now =
      windowStarts c p now := by
  rw [windowStarts_drop c p now hp k, List.take_append_drop]

theorem windowStarts_pairwise (c p now : ℤ) (hp : 0 < p) :
    (windowStarts c p now).Pairwise (· < ·) := by
  rw [windowStarts_eq c p now hp]
  refine List.Pairwise.map _ ?_ (List.pairwise_lt_range _)
  intro a b hab
  have : (a : ℤ) < (b : ℤ) := by exact_mod_cast hab
  nlinarith

theorem windowStarts_eq_nil_iff (c p now : ℤ) (hp : 0 < p) :
    windowStarts c p now = [] ↔ now < c + p := by
  rw [← List.length_eq_zero, windowStarts_length c p now hp]
  constructor
  · intro h
    by_contra hc
    have h1 : 1 ≤ (now - c) / p := by
      rw [Int.le_ediv_iff_mul_le hp]; omega
    omega
  · intro h
    have h0 : (now - c) / p < 1 := by
      rw [Int.ediv_lt_iff_lt_mul hp]; omega
    omega

/-- C2: as frozen, the claim asserts that for *every* `checkpoint_ts`,
`period_seconds > 0` and `now_ts` the loop processes exactly
`floor((now_ts - checkpoint_ts) / period_seconds)` windows.  When the
checkpoint lies in the future of `now` that floor is negative while the loop
processes zero windows: with `checkpoint_ts = 1`, `period_seconds = 1`,
`now_ts = 0` the floor is `-1` but no window is processed. -/
theorem C2_counterexample :
    ¬ (((windowStarts 1 1 0).length : ℤ) = ((0 : ℤ) - 1) / 1) := by
  decide

/-- C2 (amended): for every `checkpoint_ts`, every `period_seconds > 0` and
every `now_ts`, the window loop never processes a window whose
`start + period_seconds` exceeds `now_ts`, it processes exactly
`max 0 (floor ((now_ts - checkpoint_ts) / period_seconds))` windows (the
clamp at zero being forced by `C2_counterexample`), each window starts
exactly where the previous one ended, and the first window starts at the
checkpoint. -/
theorem C2_window_loop (c p now : ℤ) (hp : 0 < p) :
    ((windowStarts c p now).length : ℤ) = max ((now - c) / p) 0 ∧
    (∀ w ∈ windowStarts c p now, w + p ≤ now) ∧
    (∀ i : ℕ, i + 1 < (windowStarts c p now).length →
      (windowStarts c p now).getD (i + 1) 0 = (windowStarts c p now).getD i 0 + p) ∧
    (windowStarts c p now ≠ [] → (windowStarts c p now).getD 0 0 = c) := by
  refine ⟨?_, windowStarts_mem_bound c p now hp, ?_, ?_⟩
  · rw [windowStarts_length c p now hp, Int.toNat_eq_max]
  · intro i hi
    rw [windowStarts_getD c p now hp hi, windowStarts_getD c p now hp (by omega)]
    push_cast
    ring
  · intro hne
    have h0 : 0 < (windowStarts c p now).length :=
      List.length_pos.mpr hne
    rw [windowStarts_getD c p now hp h0]
    simp

/-- Witness for `C2_window_loop` at `checkpoint_ts = 0`,
`period_seconds = 86400`, `now_ts = 172800`. -/
theorem C2_window_loop_witness :
    (0 : ℤ) < 86400 ∧
    (((windowStarts 0 86400 172800).length : ℤ) = max ((172800 - 0) / 86400) 0 ∧
      (∀ w ∈ windowStarts 0 86400 172800, w + 86400 ≤ 172800) ∧
      (∀ i : ℕ, i + 1 < (windowStarts 0 86400 172800).length →
        (windowStarts 0 86400 172800).getD (i + 1) 0 =
          (windowStarts 0 86400 172800).getD i 0 + 86400) ∧
      (windowStarts 0 86400 172800 ≠ [] →
        (windowStarts 0 86400 172800).getD 0 0 = 0)) :=
  ⟨by decide, C2_window_loop 0 86400 172800 (by decide)⟩

/-! ### Behaviour of the `query_metric` loop -/

/-- A recognised aggregation method never makes `aggregate` raise. -/
theorem aggregate_ok (aggregation : String)
    (ha : aggregation = "max" ∨ aggregation = "min" ∨ aggregation = "avg")
    (values : List ℚ) : ∃ v, aggregate aggregation values = .ok v := by
  rcases ha with h | h | h <;> subst h <;> exact ⟨_, rfl⟩

/-- Once the loop guard fails, the loop exits without any side effect. -/
theorem query_metric_loop_stop (fetch : ℤ → ℤ → List (List ℚ))
    (name query aggregation : String) (step p now : ℤ) (extraction : ℚ)
    {it : ℤ} (h : now < it + p) :
    ∀ (fuel : ℕ) (cnt : ℕ) (bm : Option ℤ),
      query_metric_loop fetch name query aggregation step p now extraction
        fuel it cnt bm = ⟨[], cnt, bm, none⟩ := by
  intro fuel cnt bm
  cases fuel with
  | zero => rfl
  | succ fuel => rw [query_metric_loop, if_neg (by omega)]

/-- If every range query returns at least one timeseries and the aggregation
method is recognised, the loop raises no exception. -/
theorem query_metric_loop_error_none (fetch : ℤ → ℤ → List (List ℚ))
    (name query aggregation : String) (step p now : ℤ) (extraction : ℚ)
    (hf : ∀ a b, fetch a b ≠ [])
    (ha : aggregation = "max" ∨ aggregation = "min" ∨ aggregation = "avg") :
    ∀ (fuel : ℕ) (it : ℤ) (cnt : ℕ) (bm : Option ℤ),
      (query_metric_loop fetch name query aggregation step p now extraction
        fuel it cnt bm).error = none := by
  intro fuel
  induction fuel with
  | zero => intro it cnt bm; rfl
  | succ fuel ih =>
    intro it cnt bm
    by_cases hg : it + p ≤ now
    · obtain ⟨ts, rest, hts⟩ := List.exists_cons_of_ne_nil (hf it (it + p))
      obtain ⟨v, hv⟩ := aggregate_ok aggregation ha ts
      simp only [query_metric_loop, if_pos hg, hts, hv]
      exact ih (it + p) (cnt + 1) (some (it + p))
    · simp only [query_metric_loop, if_neg hg]

/-- Every emitted record carries the single `extraction_time` instant as its
`time_extracted`, targets `stream_name` with this metric's name and
aggregation, and its window satisfied the loop guard against the `now` that
was derived from that same instant. -/
theorem query_metric_loop_record_mem (fetch : ℤ → ℤ → List (List ℚ))
    (name query aggregation : String) (step p now : ℤ) (extraction : ℚ) :
    ∀ (fuel : ℕ) (it : ℤ) (cnt : ℕ) (bm : Option ℤ) (s : String) (d : ℤ)
      (m a : String) (v : Option ℚ) (t : ℚ),
      Event.record s d m a v t ∈ (query_metric_loop fetch name query aggregation
        step p now extraction fuel it cnt bm).events →
      t = extraction ∧ s = stream_name ∧ m = name ∧ a = aggregation ∧ d + p ≤ now := by
  intro fuel
  induction fuel with
  | zero => intro it cnt bm s d m a v t hmem; simp [query_metric_loop] at hmem
  | succ fuel ih =>
    intro it cnt bm s d m a v t hmem
    by_cases hg : it + p ≤ now
    · cases hts : fetch it (it + p) with
      | nil =>
        simp only [query_metric_loop, if_pos hg, hts] at hmem
        simp at hmem
      | cons ts rest =>
        cases hagg : aggregate aggregation ts with
        | error e =>
          simp only [query_metric_loop, if_pos hg, hts, hagg] at hmem
          simp at hmem
        | ok v' =>
          simp only [query_metric_loop, if_pos hg, hts, hagg, List.mem_cons,
            List.mem_append] at hmem
          rcases hmem with h | h | h | h | h
          · exact absurd h (by simp)
          · injection h with h1 h2 h3 h4 h5 h6
            subst h1; subst h2; subst h3; subst h4; subst h6
            exact ⟨rfl, rfl, rfl, rfl, by omega⟩
          · exact absurd h (by simp)
          · by_cases hc : (cnt + 1) % 100 = 0 <;> simp [hc] at h
          · exact ih (it + p) (cnt + 1) (some (it + p)) s d m a v t h
    · simp only [query_metric_loop, if_neg hg] at hmem
      simp at hmem

/-- On the happy path the loop's final in-memory bookmark is the end of the
last processed window (and is untouched when there was no window). -/
theorem query_metric_loop_bookmark (fetch : ℤ → ℤ → List (List ℚ))
    (name query aggregation : String) (step p now : ℤ) (extraction : ℚ)
    (hf : ∀ a b, fetch a b ≠ [])
    (ha : aggregation = "max" ∨ aggregation = "min" ∨ aggregation = "avg") :
    ∀ (fuel : ℕ) (it : ℤ) (cnt : ℕ) (bm : Option ℤ),
      (query_metric_loop fetch name query aggregation step p now extraction
        fuel it cnt bm).bookmark =
      if windowStartsAux p now fuel it = [] then bm
      else some (it + p * (windowStartsAux p now fuel it).length) := by
  intro fuel
  induction fuel with
  | zero => intro it cnt bm; rfl
  | succ fuel ih =>
    intro it cnt bm
    by_cases hg : it + p ≤ now
    · obtain ⟨ts, rest, hts⟩ := List.exists_cons_of_ne_nil (hf it (it + p))
      obtain ⟨v, hv⟩ := aggregate_ok aggregation ha ts
      simp only [query_metric_loop, windowStartsAux, if_pos hg, hts, hv]
      rw [ih (it + p) (cnt + 1) (some (it + p))]
      by_cases hnil : windowStartsAux p now fuel (it + p) = []
      · simp only [hnil, if_pos rfl]
        simp only [if_neg (List.cons_ne_nil _ _)]
        simp
      · simp only [if_neg hnil, if_neg (List.cons_ne_nil _ _)]
        have : ((it :: windowStartsAux p now fuel (it + p)).length : ℤ) =
            (windowStartsAux p now fuel (it + p)).length + 1 := by
          simp
        rw [this]
        ring_nf
    · simp only [query_metric_loop, windowStartsAux, if_neg hg]
      simp

/-- On the happy path the loop increments `Context.new_counts[stream_name]`
once per processed window. -/
theorem query_metric_loop_newCount (fetch : ℤ → ℤ → List (List ℚ))
    (name query aggregation : String) (step p now : ℤ) (extraction : ℚ)
    (hf : ∀ a b, fetch a b ≠ [])
    (ha : aggregation = "max" ∨ aggregation = "min" ∨ aggregation = "avg") :
    ∀ (fuel : ℕ) (it : ℤ) (cnt : ℕ) (bm : Option ℤ),
      (query_metric_loop fetch name query aggregation step p now extraction
        fuel it cnt bm).newCount = cnt + (windowStartsAux p now fuel it).length := by
  intro fuel
  induction fuel with
  | zero => intro it cnt bm; rfl
  | succ fuel ih =>
    intro it cnt bm
    by_cases hg : it + p ≤ now
    · obtain ⟨ts, rest, hts⟩ := List.exists_cons_of_ne_nil (hf it (it + p))
      obtain ⟨v, hv⟩ := aggregate_ok aggregation ha ts
      simp only [query_metric_loop, windowStartsAux, if_pos hg, hts, hv]
      rw [ih (it + p) (cnt + 1) (some (it + p))]
      simp
      omega
    · simp only [query_metric_loop, windowStartsAux, if_neg hg]
      simp

/-- On the happy path the number of `write_state` calls made *inside* the
loop equals the number of multiples of 100 that the stream counter crosses:
the counter enters at `cnt` and leaves at `cnt + number of windows`. -/
theorem query_metric_loop_persist_count (fetch : ℤ → ℤ → List (List ℚ))
    (name query aggregation : String) (step p now : ℤ) (extraction : ℚ)
    (hf : ∀ a b, fetch a b ≠ [])
    (ha : aggregation = "max" ∨ aggregation = "min" ∨ aggregation = "avg") :
    ∀ (fuel : ℕ) (it : ℤ) (cnt : ℕ) (bm : Option ℤ),
      ((query_metric_loop fetch name query aggregation step p now extraction
        fuel it cnt bm).events.countP isPersist) =
      (cnt + (windowStartsAux p now fuel it).length) / 100 - cnt / 100 := by
  intro fuel
  induction fuel with
  | zero => intro it cnt bm; simp [query_metric_loop, windowStartsAux]
  | succ fuel ih =>
    intro it cnt bm
    by_cases hg : it + p ≤ now
    · obtain ⟨ts, rest, hts⟩ := List.exists_cons_of_ne_nil (hf it (it + p))
      obtain ⟨v, hv⟩ := aggregate_ok aggregation ha ts
      simp only [query_metric_loop, windowStartsAux, if_pos hg, hts, hv]
      rw [List.countP_cons, List.countP_cons, List.countP_cons, List.countP_append,
        ih (it + p) (cnt + 1) (some (it + p))]
      by_cases hc : (cnt + 1) % 100 = 0
      · simp only [if_pos hc]
        simp [isPersist]
        omega
      · simp only [if_neg hc]
        simp [isPersist]
        omega
    · simp only [query_metric_loop, windowStartsAux, if_neg hg]
      simp

/-- On the happy path, each processed window gives rise to an adjacent
`write_record`-then-`write_bookmark` pair in the trace: the bookmark holding
the window's end is written immediately after the record for that window. -/
theorem query_metric_loop_record_block (fetch : ℤ → ℤ → List (List ℚ))
    (name query aggregation : String) (step p now : ℤ) (extraction : ℚ)
    (hf : ∀ a b, fetch a b ≠ [])
    (ha : aggregation = "max" ∨ aggregation = "min" ∨ aggregation = "avg") :
    ∀ (fuel : ℕ) (it : ℤ) (cnt : ℕ) (bm : Option ℤ),
      ∀ w ∈ windowStartsAux p now fuel it,
        ∃ (v : Option ℚ) (l1 l2 : List Event),
          (query_metric_loop fetch name query aggregation step p now extraction
            fuel it cnt bm).events =
          l1 ++ Event.record stream_name w name aggregation v extraction ::
            Event.bookmark name (w + p) :: l2 := by
  intro fuel
  induction fuel with
  | zero => intro it cnt bm w hw; simp [windowStartsAux] at hw
  | succ fuel ih =>
    intro it cnt bm w hw
    by_cases hg : it + p ≤ now
    · obtain ⟨ts, rest, hts⟩ := List.exists_cons_of_ne_nil (hf it (it + p))
      obtain ⟨v, hv⟩ := aggregate_ok aggregation ha ts
      rw [windowStartsAux, if_pos hg] at hw
      simp only [query_metric_loop, if_pos hg, hts, hv]
      rcases List.mem_cons.mp hw with hw | hw
      · subst hw
        exact ⟨v, [Event.rangeQuery query w (w + p) step], _, rfl⟩
      · obtain ⟨v', l1, l2, hrec⟩ := ih (it + p) (cnt + 1) (some (it + p)) w hw
        refine ⟨v', Event.rangeQuery query it (it + p) step ::
          Event.record stream_name it name aggregation v extraction ::
          Event.bookmark name (it + p) ::
          ((if (cnt + 1) % 100 = 0 then [Event.persistState] else []) ++ l1), l2, ?_⟩
        simp [hrec, List.append_assoc]
    · rw [windowStartsAux, if_neg hg] at hw
      simp at hw

/-- The value `period_seconds 'day'` is 86400 seconds. -/
theorem period_seconds_day : period_seconds "day" = .ok 86400 := rfl

/-- Unfolding `query_metric` for period `'day'` on the happy path: the loop
runs with `p = 86400` and the final `write_state` (line 182) is appended. -/
theorem query_metric_day_happy (fetch : ℤ → ℤ → List (List ℚ))
    (name query aggregation : String) (step c : ℤ) (extraction : ℚ)
    (cnt : ℕ) (bm0 : Option ℤ)
    (hf : ∀ a b, fetch a b ≠ [])
    (ha : aggregation = "max" ∨ aggregation = "min" ∨ aggregation = "avg") :
    query_metric fetch name query aggregation "day" step c extraction cnt bm0 =
      ⟨(query_metric_loop fetch name query aggregation step 86400
          (intTrunc extraction) extraction
          (loopFuel c 86400 (intTrunc extraction)) c cnt bm0).events ++
        [Event.persistState],
        (query_metric_loop fetch name query aggregation step 86400
          (intTrunc extraction) extraction
          (loopFuel c 86400 (intTrunc extraction)) c cnt bm0).newCount,
        (query_metric_loop fetch name query aggregation step 86400
          (intTrunc extraction) extraction
          (loopFuel c 86400 (intTrunc extraction)) c cnt bm0).bookmark,
        none⟩ := by
  have herr := query_metric_loop_error_none fetch name query aggregation step 86400
    (intTrunc extraction) extraction hf ha (loopFuel c 86400 (intTrunc extraction)) c cnt bm0
  simp only [query_metric, period_seconds_day]
  rw [herr]

/-- The list `windowStarts` is `windowStartsAux` run with the loop's fuel. -/
theorem windowStarts_def (c p now : ℤ) :
    windowStartsAux p now (loopFuel c p now) c = windowStarts c p now := rfl

/-- When the guard fails at once, `query_metric` with period `'day'` only
performs the final `write_state` of line 182. -/
theorem query_metric_day_no_windows (fetch : ℤ → ℤ → List (List ℚ))
    (name query aggregation : String) (step c : ℤ) (ex : ℚ) (cnt : ℕ)
    (bm0 : Option ℤ) (h : intTrunc ex < c + 86400) :
    query_metric fetch name query aggregation "day" step c ex cnt bm0 =
      ⟨[Event.persistState], cnt, bm0, none⟩ := by
  simp only [query_metric, period_seconds_day]
  rw [query_metric_loop_stop fetch name query aggregation step 86400
    (intTrunc ex) ex (by omega) _ cnt bm0]
  rfl

/-- C1: after each window is fully emitted the in-memory bookmark for the
metric is set to the window's end `w + 86400`, and that `write_bookmark`
happens immediately after (hence only after) the `write_record` for the
window; a run resumed from checkpoint `c + 86400 * k` continues with exactly
the windows the first `k` windows left over (no start is skipped), and the
emitted window starts are strictly increasing (none is emitted twice). -/
theorem C1_emit_then_advance (fetch : ℤ → ℤ → List (List ℚ))
    (name query aggregation : String) (step c : ℤ) (ex : ℚ) (now : ℤ)
    (cnt : ℕ) (bm0 : Option ℤ) (k : ℕ)
    (hf : ∀ a b, fetch a b ≠ [])
    (ha : aggregation = "max" ∨ aggregation = "min" ∨ aggregation = "avg")
    (hnow : intTrunc ex = now) :
    (query_metric fetch name query aggregation "day" step c ex cnt bm0).error = none ∧
    (∀ w ∈ windowStarts c 86400 now, ∃ (v : Option ℚ) (l1 l2 : List Event),
      (query_metric fetch name query aggregation "day" step c ex cnt bm0).events =
        l1 ++ Event.record stream_name w name aggregation v ex ::
          Event.bookmark name (w + 86400) :: l2) ∧
    (windowStarts c 86400 now ≠ [] →
      (query_metric fetch name query aggregation "day" step c ex cnt bm0).bookmark =
        some (c + 86400 * (windowStarts c 86400 now).length)) ∧
    ((windowStarts c 86400 now).take k ++ windowStarts (c + 86400 * k) 86400 now =
      windowStarts c 86400 now) ∧
    (windowStarts c 86400 now).Pairwise (· < ·) := by
  subst hnow
  rw [query_metric_day_happy fetch name query aggregation step c ex cnt bm0 hf ha]
  refine ⟨rfl, ?_, ?_, windowStarts_take_drop _ _ _ (by omega) k,
    windowStarts_pairwise _ _ _ (by omega)⟩
  · intro w hw
    rw [← windowStarts_def c 86400 (intTrunc ex)] at hw
    obtain ⟨v, l1, l2, h⟩ := query_metric_loop_record_block fetch name query aggregation
      step 86400 (intTrunc ex) ex hf ha (loopFuel c 86400 (intTrunc ex)) c cnt bm0 w hw
    exact ⟨v, l1, l2 ++ [Event.persistState], by simp [h]⟩
  · intro hne
    show (query_metric_loop fetch name query aggregation step 86400
      (intTrunc ex) ex (loopFuel c 86400 (intTrunc ex)) c cnt bm0).bookmark = _
    rw [query_metric_loop_bookmark fetch name query aggregation step 86400
      (intTrunc ex) ex hf ha (loopFuel c 86400 (intTrunc ex)) c cnt bm0,
      windowStarts_def, if_neg hne]

/-- Witness for `C1_emit_then_advance`: two windows of one day starting at
the epoch, resumed after the first. -/
theorem C1_emit_then_advance_witness :
    ((∀ a b : ℤ, (fun _ _ => [[(1 : ℚ)]] : ℤ → ℤ → List (List ℚ)) a b ≠ []) ∧
      (("avg" : String) = "max" ∨ ("avg" : String) = "min" ∨ ("avg" : String) = "avg") ∧
      intTrunc (172800 : ℚ) = 172800) ∧
    ((query_metric (fun _ _ => [[(1 : ℚ)]]) "cpu" "q" "avg" "day" 60 0 172800 0 none).error
        = none ∧
      (∀ w ∈ windowStarts 0 86400 172800, ∃ (v : Option ℚ) (l1 l2 : List Event),
        (query_metric (fun _ _ => [[(1 : ℚ)]]) "cpu" "q" "avg" "day" 60 0 172800 0 none).events =
          l1 ++ Event.record stream_name w "cpu" "avg" v 172800 ::
            Event.bookmark "cpu" (w + 86400) :: l2) ∧
      (windowStarts 0 86400 172800 ≠ [] →
        (query_metric (fun _ _ => [[(1 : ℚ)]]) "cpu" "q" "avg" "day" 60 0 172800 0 none).bookmark =
          some (0 + 86400 * (windowStarts 0 86400 172800).length)) ∧
      ((windowStarts 0 86400 172800).take 1 ++ windowStarts (0 + 86400 * 1) 86400 172800 =
        windowStarts 0 86400 172800) ∧
      (windowStarts 0 86400 172800).Pairwise (· < ·)) :=
  ⟨⟨fun _ _ => by simp, Or.inr (Or.inr rfl), by decide⟩,
    C1_emit_then_advance (fun _ _ => [[(1 : ℚ)]]) "cpu" "q" "avg" 60 0 172800 172800 0 none 1
      (fun _ _ => by simp) (Or.inr (Or.inr rfl)) (by decide)⟩

set_option maxRecDepth 8000 in
/-- C3: as frozen, the claim asserts that the persist cadence is *per
metric*: state is persisted after every 100th emitted record *of that
metric*.  The source keys the cadence on the shared per-stream counter
`Context.new_counts['aggregated_metric_history']`, which `sync` does not
reset between metrics.  Concretely, in a run with metric `a` (50 windows)
followed by metric `b` (150 windows), the persists seen by `b` happen with
0, 50, 150 and 150 of `b`'s records emitted: `b` emits 150 records, yet no
persist happens right after its 100th record, refuting the claim. -/
theorem C3_counterexample :
    persistRecordPositions "b"
      (sync ["aggregated_metric_history"] (fun _ _ => [[(1 : ℚ)]])
        (fun s => if s = "a" then 8640000 else 0) (fun _ => 12960000)
        [⟨"a", "qa", "max", "day", 60⟩, ⟨"b", "qb", "max", "day", 60⟩]).outcome.events =
      [0, 50, 150, 150] ∧
    (sync ["aggregated_metric_history"] (fun _ _ => [[(1 : ℚ)]])
        (fun s => if s = "a" then 8640000 else 0) (fun _ => 12960000)
        [⟨"a", "qa", "max", "day", 60⟩, ⟨"b", "qb", "max", "day", 60⟩]).outcome.events.countP
      (isRecordOf "b") = 150 ∧
    100 ∉ persistRecordPositions "b"
      (sync ["aggregated_metric_history"] (fun _ _ => [[(1 : ℚ)]])
        (fun s => if s = "a" then 8640000 else 0) (fun _ => 12960000)
        [⟨"a", "qa", "max", "day", 60⟩, ⟨"b", "qb", "max", "day", 60⟩]).outcome.events := by
  refine ⟨by decide, by decide, ?_⟩
  intro h
  rw [show persistRecordPositions "b"
      (sync ["aggregated_metric_history"] (fun _ _ => [[(1 : ℚ)]])
        (fun s => if s = "a" then 8640000 else 0) (fun _ => 12960000)
        [⟨"a", "qa", "max", "day", 60⟩, ⟨"b", "qb", "max", "day", 60⟩]).outcome.events =
      [0, 50, 150, 150] from by decide] at h
  simp at h

/-- C3 (amended): within one `query_metric` call the checkpoint state is
persisted after every emitted record that brings the *per-stream* counter
`Context.new_counts[stream_name]` (entering at `cnt`) to a multiple of 100,
plus unconditionally once when the loop terminates; that is
`(cnt + windows) / 100 - cnt / 100 + 1` persist calls in total.  For a
metric starting from counter 0 with 250 windows this is exactly 3. -/
theorem C3_persist_cadence (fetch : ℤ → ℤ → List (List ℚ))
    (name query aggregation : String) (step c : ℤ) (ex : ℚ) (now : ℤ)
    (cnt : ℕ) (bm0 : Option ℤ)
    (hf : ∀ a b, fetch a b ≠ [])
    (ha : aggregation = "max" ∨ aggregation = "min" ∨ aggregation = "avg")
    (hnow : intTrunc ex = now) :
    ((query_metric fetch name query aggregation "day" step c ex cnt bm0).events.countP
        isPersist) =
      ((cnt + (windowStarts c 86400 now).length) / 100 - cnt / 100) + 1 := by
  subst hnow
  rw [query_metric_day_happy fetch name query aggregation step c ex cnt bm0 hf ha]
  show ((query_metric_loop fetch name query aggregation step 86400
    (intTrunc ex) ex (loopFuel c 86400 (intTrunc ex)) c cnt bm0).events ++
      [Event.persistState]).countP isPersist = _
  rw [List.countP_append,
    query_metric_loop_persist_count fetch name query aggregation step 86400
      (intTrunc ex) ex hf ha (loopFuel c 86400 (intTrunc ex)) c cnt bm0,
    windowStarts_def]
  simp [isPersist]

set_option maxRecDepth 8000 in
/-- Witness for `C3_persist_cadence`: 250 one-day windows from a fresh
stream counter persist the state exactly 3 times. -/
theorem C3_persist_cadence_witness :
    ((∀ a b : ℤ, (fun _ _ => [[(1 : ℚ)]] : ℤ → ℤ → List (List ℚ)) a b ≠ []) ∧
      (("avg" : String) = "max" ∨ ("avg" : String) = "min" ∨ ("avg" : String) = "avg") ∧
      intTrunc (21600000 : ℚ) = 21600000) ∧
    ((query_metric (fun _ _ => [[(1 : ℚ)]]) "cpu" "q" "avg" "day" 60 0 21600000 0
        none).events.countP isPersist = 3) := by
  refine ⟨⟨fun _ _ => by simp, Or.inr (Or.inr rfl), by decide⟩, ?_⟩
  have h := C3_persist_cadence (fun _ _ => [[(1 : ℚ)]]) "cpu" "q" "avg" 60 0 21600000
    21600000 0 none (fun _ _ => by simp) (Or.inr (Or.inr rfl)) (by decide)
  rw [h]
  have hlen : (windowStarts 0 86400 21600000).length = 250 := by decide
  rw [hlen]

/-- C4: contrary to the claim, `aggregate` does *not* reject an empty sample
series: pandas `max`/`min`/`mean` on an empty float column return `NaN`
(modelled as `none`), so `aggregate` silently returns `NaN` for each of the
three supported methods instead of raising a defined error. -/
theorem C4_empty_series_returns_nan :
    aggregate "min" [] = .ok none ∧ aggregate "max" [] = .ok none ∧
    aggregate "avg" [] = .ok none ∧
    (∀ e : String, aggregate "min" [] ≠ .error e ∧ aggregate "max" [] ≠ .error e ∧
      aggregate "avg" [] ≠ .error e) :=
  ⟨rfl, rfl, rfl, fun _ =>
    ⟨fun h => Except.noConfusion h, fun h => Except.noConfusion h,
      fun h => Except.noConfusion h⟩⟩

/-- The fold of the binary maximum over a list is one of its inputs. -/
theorem foldl_max_mem (v : ℚ) (vs : List ℚ) :
    vs.foldl max v = v ∨ vs.foldl max v ∈ vs := by
  induction vs generalizing v with
  | nil => left; rfl
  | cons x xs ih =>
    rw [List.foldl_cons]
    rcases ih (max v x) with h | h
    · rcases max_choice v x with hm | hm
      · left; rw [h, hm]
      · right; rw [h, hm]; exact List.mem_cons_self _ _
    · right; exact List.mem_cons_of_mem _ h

/-- Every input of the fold of the binary maximum is bounded by its result. -/
theorem le_foldl_max (v : ℚ) (vs : List ℚ) :
    ∀ x, x = v ∨ x ∈ vs → x ≤ vs.foldl max v := by
  induction vs generalizing v with
  | nil =>
    rintro x (rfl | h)
    · exact le_refl _
    · simp at h
  | cons y ys ih =>
    rintro x (rfl | h)
    · exact le_trans (le_max_left x y) (ih (max x y) _ (Or.inl rfl))
    · rcases List.mem_cons.mp h with rfl | hm
      · exact le_trans (le_max_right v x) (ih (max v x) _ (Or.inl rfl))
      · exact ih (max v y) x (Or.inr hm)

/-- The fold of the binary minimum over a list is one of its inputs. -/
theorem foldl_min_mem (v : ℚ) (vs : List ℚ) :
    vs.foldl min v = v ∨ vs.foldl min v ∈ vs := by
  induction vs generalizing v with
  | nil => left; rfl
  | cons x xs ih =>
    rw [List.foldl_cons]
    rcases ih (min v x) with h | h
    · rcases min_choice v x with hm | hm
      · left; rw [h, hm]
      · right; rw [h, hm]; exact List.mem_cons_self _ _
    · right; exact List.mem_cons_of_mem _ h

/-- The fold of the binary minimum bounds every input from below. -/
theorem foldl_min_le (v : ℚ) (vs : List ℚ) :
    ∀ x, x = v ∨ x ∈ vs → vs.foldl min v ≤ x := by
  induction vs generalizing v with
  | nil =>
    rintro x (rfl | h)
    · exact le_refl _
    · simp at h
  | cons y ys ih =>
    rintro x (rfl | h)
    · exact le_trans (ih (min x y) _ (Or.inl rfl)) (min_le_left x y)
    · rcases List.mem_cons.mp h with rfl | hm
      · exact le_trans (ih (min v x) _ (Or.inl rfl)) (min_le_right v x)
      · exact ih (min v y) x (Or.inr hm)

/-- C5: on a nonempty sample series, `aggregate` with `'min'` returns the
minimum of the values, with `'max'` the maximum, with `'avg'` their
arithmetic mean (`length * result = sum`), and any other method name raises
`Exception("Aggregation method not implemented: ...")`. -/
theorem C5_aggregation_correct (values : List ℚ) (hne : values ≠ []) :
    (∃ v, aggregate "min" values = .ok (some v) ∧ v ∈ values ∧ ∀ x ∈ values, v ≤ x) ∧
    (∃ v, aggregate "max" values = .ok (some v) ∧ v ∈ values ∧ ∀ x ∈ values, x ≤ v) ∧
    (∃ v, aggregate "avg" values = .ok (some v) ∧ (values.length : ℚ) * v = values.sum) ∧
    (∀ m : String, m ≠ "max" → m ≠ "min" → m ≠ "avg" →
      aggregate m values = .error ("Aggregation method not implemented: " ++ m)) := by
  obtain ⟨v, vs, rfl⟩ := List.exists_cons_of_ne_nil hne
  refine ⟨⟨vs.foldl min v, rfl, ?_, ?_⟩, ⟨vs.foldl max v, rfl, ?_, ?_⟩,
    ⟨(v :: vs).sum / ((v :: vs).length : ℚ), rfl, ?_⟩, ?_⟩
  · rcases foldl_min_mem v vs with h | h
    · rw [h]; exact List.mem_cons_self _ _
    · exact List.mem_cons_of_mem _ h
  · intro x hx
    exact foldl_min_le v vs x (List.mem_cons.mp hx)
  · rcases foldl_max_mem v vs with h | h
    · rw [h]; exact List.mem_cons_self _ _
    · exact List.mem_cons_of_mem _ h
  · intro x hx
    exact le_foldl_max v vs x (List.mem_cons.mp hx)
  · have hlen : (((v :: vs).length : ℕ) : ℚ) ≠ 0 := by
      simp only [List.length_cons]
      push_cast
      positivity
    field_simp
  · intro m h1 h2 h3
    simp [aggregate, h1, h2, h3]

/-- Witness for `C5_aggregation_correct` on the series `[3, 1, 2]`. -/
theorem C5_aggregation_correct_witness :
    (([3, 1, 2] : List ℚ) ≠ []) ∧
    ((∃ v, aggregate "min" [3, 1, 2] = .ok (some v) ∧ v ∈ ([3, 1, 2] : List ℚ) ∧
        ∀ x ∈ ([3, 1, 2] : List ℚ), v ≤ x) ∧
      (∃ v, aggregate "max" [3, 1, 2] = .ok (some v) ∧ v ∈ ([3, 1, 2] : List ℚ) ∧
        ∀ x ∈ ([3, 1, 2] : List ℚ), x ≤ v) ∧
      (∃ v, aggregate "avg" [3, 1, 2] = .ok (some v) ∧
        ((([3, 1, 2] : List ℚ).length : ℚ) * v = ([3, 1, 2] : List ℚ).sum)) ∧
      (∀ m : String, m ≠ "max" → m ≠ "min" → m ≠ "avg" →
        aggregate m [3, 1, 2] = .error ("Aggregation method not implemented: " ++ m))) :=
  ⟨by simp, C5_aggregation_correct [3, 1, 2] (by simp)⟩

/-- C6: a period other than `'day'` makes `query_metric` raise
`Exception('Period is not supported: ...')` before any range query is issued
and before any record is emitted (the event trace is empty). -/
theorem C6_unsupported_period (fetch : ℤ → ℤ → List (List ℚ))
    (name query aggregation period : String) (step c : ℤ) (ex : ℚ)
    (cnt : ℕ) (bm0 : Option ℤ) (hp : period ≠ "day") :
    query_metric fetch name query aggregation period step c ex cnt bm0 =
      ⟨[], cnt, bm0, some ("Period is not supported: " ++ period)⟩ := by
  simp [query_metric, period_seconds, hp]

/-- Witness for `C6_unsupported_period` with period `'hour'`. -/
theorem C6_unsupported_period_witness :
    (("hour" : String) ≠ "day") ∧
    query_metric (fun _ _ => [[(1 : ℚ)]]) "cpu" "q" "avg" "hour" 60 0 0 0 none =
      ⟨[], 0, none, some "Period is not supported: hour"⟩ :=
  ⟨by decide,
    C6_unsupported_period (fun _ _ => [[(1 : ℚ)]]) "cpu" "q" "avg" "hour" 60 0 0 0 none
      (by decide)⟩

/-- C9: within one `query_metric` invocation every emitted record carries the
single `extraction_time` captured before the first window was fetched, and
the loop's `now` bound (`current_unixtime = int(extraction_time.timestamp())`)
against which each emitted window was checked is derived from that same
instant. -/
theorem C9_extraction_time_once (fetch : ℤ → ℤ → List (List ℚ))
    (name query aggregation : String) (step c : ℤ) (ex : ℚ) (now : ℤ)
    (cnt : ℕ) (bm0 : Option ℤ) (hnow : intTrunc ex = now) :
    ∀ (s : String) (d : ℤ) (m a : String) (v : Option ℚ) (t : ℚ),
      Event.record s d m a v t ∈
        (query_metric fetch name query aggregation "day" step c ex cnt bm0).events →
      t = ex ∧ s = stream_name ∧ m = name ∧ a = aggregation ∧ d + 86400 ≤ now := by
  subst hnow
  intro s d m a v t hmem
  simp only [query_metric, period_seconds_day] at hmem
  cases herr : (query_metric_loop fetch name query aggregation step 86400
      (intTrunc ex) ex (loopFuel c 86400 (intTrunc ex)) c cnt bm0).error with
  | none =>
    rw [herr] at hmem
    simp only [List.mem_append] at hmem
    rcases hmem with hmem | hmem
    · exact query_metric_loop_record_mem fetch name query aggregation step 86400
        (intTrunc ex) ex (loopFuel c 86400 (intTrunc ex)) c cnt bm0 s d m a v t hmem
    · simp at hmem
  | some e =>
    rw [herr] at hmem
    exact query_metric_loop_record_mem fetch name query aggregation step 86400
      (intTrunc ex) ex (loopFuel c 86400 (intTrunc ex)) c cnt bm0 s d m a v t hmem

/-- Witness for `C9_extraction_time_once`: the single record of a one-window
run carries `time_extracted = 86400` and satisfied the bound. -/
theorem C9_extraction_time_once_witness :
    (intTrunc (86400 : ℚ) = 86400 ∧
      Event.record stream_name 0 "cpu" "max" (some 5) 86400 ∈
        (query_metric (fun _ _ => [[(5 : ℚ)]]) "cpu" "q" "max" "day" 60 0 86400 0
          none).events) ∧
    ((86400 : ℚ) = 86400 ∧ stream_name = stream_name ∧ ("cpu" : String) = "cpu" ∧
      ("max" : String) = "max" ∧ (0 : ℤ) + 86400 ≤ 86400) := by
  have hev : (query_metric (fun _ _ => [[(5 : ℚ)]]) "cpu" "q" "max" "day" 60 0 86400 0
      none).events =
      [Event.rangeQuery "q" 0 86400 60,
        Event.record stream_name 0 "cpu" "max" (some 5) 86400,
        Event.bookmark "cpu" 86400, Event.persistState] := by decide
  have hmem : Event.record stream_name 0 "cpu" "max" (some 5) 86400 ∈
      (query_metric (fun _ _ => [[(5 : ℚ)]]) "cpu" "q" "max" "day" 60 0 86400 0
        none).events := by
    rw [hev]
    simp
  exact ⟨⟨by decide, hmem⟩,
    C9_extraction_time_once (fun _ _ => [[(5 : ℚ)]]) "cpu" "q" "max" 60 0 86400 86400 0 none
      (by decide) stream_name 0 "cpu" "max" (some 5) 86400 hmem⟩

/-- C7: after a completed `query_metric` run, the persisted checkpoint `c'`
(the final in-memory bookmark, or the unchanged starting bookmark when no
window fit) satisfies `now < c' + 86400`; re-running from `c'` under the same
wall clock — and in fact under any wall clock below `c' + 86400` — processes
zero windows and emits zero records (the rerun's only event is the final
`write_state`), while any wall clock of at least `c' + 86400` (the last
window's end plus one period) again yields a nonempty window sequence. -/
theorem C7_idempotent_resumption (fetch fetch' : ℤ → ℤ → List (List ℚ))
    (name name' query query' aggregation aggregation' : String)
    (step step' c : ℤ) (ex : ℚ) (now : ℤ) (cnt cnt' : ℕ) (bm0 bm0' : Option ℤ)
    (hf : ∀ a b, fetch a b ≠ [])
    (ha : aggregation = "max" ∨ aggregation = "min" ∨ aggregation = "avg")
    (hnow : intTrunc ex = now)
    (hbm : bm0 = none ∨ bm0 = some c)
    (c' : ℤ)
    (hc' : ((query_metric fetch name query aggregation "day" step c ex cnt
      bm0).bookmark).getD c = c') :
    now < c' + 86400 ∧
    windowStarts c' 86400 now = [] ∧
    (∀ (ex' : ℚ) (now' : ℤ), intTrunc ex' = now' → now' < c' + 86400 →
      (query_metric fetch' name' query' aggregation' "day" step' c' ex' cnt'
        bm0').events = [Event.persistState] ∧
      windowStarts c' 86400 now' = []) ∧
    (∀ now2 : ℤ, c' + 86400 ≤ now2 → windowStarts c' 86400 now2 ≠ []) := by
  subst hnow
  have hbk : (query_metric fetch name query aggregation "day" step c ex cnt bm0).bookmark =
      if windowStarts c 86400 (intTrunc ex) = [] then bm0
      else some (c + 86400 * (windowStarts c 86400 (intTrunc ex)).length) := by
    rw [query_metric_day_happy fetch name query aggregation step c ex cnt bm0 hf ha]
    show (query_metric_loop fetch name query aggregation step 86400
      (intTrunc ex) ex (loopFuel c 86400 (intTrunc ex)) c cnt bm0).bookmark = _
    rw [query_metric_loop_bookmark fetch name query aggregation step 86400
      (intTrunc ex) ex hf ha (loopFuel c 86400 (intTrunc ex)) c cnt bm0,
      windowStarts_def]
  rw [hbk] at hc'
  have hlt : intTrunc ex < c' + 86400 := by
    by_cases hnil : windowStarts c 86400 (intTrunc ex) = []
    · rw [if_pos hnil] at hc'
      have hcc : c = c' := by
        rcases hbm with h | h <;> rw [h] at hc' <;> simpa using hc'
      have := (windowStarts_eq_nil_iff c 86400 (intTrunc ex) (by omega)).mp hnil
      omega
    · rw [if_neg hnil] at hc'
      simp only [Option.getD_some] at hc'
      have hlen := windowStarts_length c 86400 (intTrunc ex) (by omega)
      rw [hlen] at hc'
      omega
  refine ⟨hlt, (windowStarts_eq_nil_iff _ _ _ (by omega)).mpr hlt, ?_, ?_⟩
  · intro ex' now' hnow' hlt'
    subst hnow'
    constructor
    · rw [query_metric_day_no_windows fetch' name' query' aggregation' step' c' ex' cnt'
        bm0' hlt']
    · exact (windowStarts_eq_nil_iff _ _ _ (by omega)).mpr hlt'
  · intro now2 h2
    rw [Ne, windowStarts_eq_nil_iff _ _ _ (by omega)]
    omega

/-- Witness for `C7_idempotent_resumption`: a two-window run from the epoch
finishes with checkpoint 172800; rerunning at the same wall clock does
nothing but persist state. -/
theorem C7_idempotent_resumption_witness :
    ((∀ a b : ℤ, (fun _ _ => [[(2 : ℚ)]] : ℤ → ℤ → List (List ℚ)) a b ≠ []) ∧
      (("max" : String) = "max" ∨ ("max" : String) = "min" ∨ ("max" : String) = "avg") ∧
      intTrunc (172800 : ℚ) = 172800 ∧
      ((none : Option ℤ) = none ∨ (none : Option ℤ) = some 0) ∧
      ((query_metric (fun _ _ => [[(2 : ℚ)]]) "cpu" "q" "max" "day" 60 0 172800 0
        none).bookmark).getD 0 = 172800) ∧
    ((172800 : ℤ) < 172800 + 86400 ∧
      windowStarts 172800 86400 172800 = [] ∧
      (∀ (ex' : ℚ) (now' : ℤ), intTrunc ex' = now' → now' < 172800 + 86400 →
        (query_metric (fun _ _ => [[(2 : ℚ)]]) "cpu2" "q2" "min" "day" 30 172800 ex' 7
          (some 5)).events = [Event.persistState] ∧
        windowStarts 172800 86400 now' = []) ∧
      (∀ now2 : ℤ, 172800 + 86400 ≤ now2 → windowStarts 172800 86400 now2 ≠ [])) :=
  ⟨⟨fun _ _ => by simp, Or.inl rfl, by decide, Or.inl rfl, by decide⟩,
    C7_idempotent_resumption (fun _ _ => [[(2 : ℚ)]]) (fun _ _ => [[(2 : ℚ)]])
      "cpu" "cpu2" "q" "q2" "max" "min" 60 30 0 172800 172800 0 7 none (some 5)
      (fun _ _ => by simp) (Or.inl rfl) (by decide) (Or.inl rfl) 172800 (by decide)⟩

/-- Writing `some 0` for every element of `l` leaves `s` at `some 0` as soon
as `s` is in `l` or already held `some 0`. -/
theorem foldl_update_zero (s : String) :
    ∀ (l : List String) (f0 : String → Option ℕ), (s ∈ l ∨ f0 s = some 0) →
      (l.foldl (fun f x => fun y => if y = x then some 0 else f y) f0) s = some 0 := by
  intro l
  induction l with
  | nil =>
    intro f0 h
    rcases h with h | h
    · simp at h
    · exact h
  | cons a t ih =>
    intro f0 h
    rw [List.foldl_cons]
    apply ih
    rcases h with h | h
    · rcases List.mem_cons.mp h with rfl | hm
      · by_cases hs : s ∈ t
        · exact Or.inl hs
        · right; simp
      · exact Or.inl hm
    · by_cases hs : s = a
      · right; simp [hs]
      · right; simp [hs, h]

/-- C10: `sync` zeroes `Context.updated_counts` for every catalog stream at
start, and no operation of the run ever increments it, so the update count
reported at the end of the run is `0` for every stream no matter which
metrics ran and how many records they emitted. -/
theorem C10_updated_counts_zero (streams : List String)
    (fetch : ℤ → ℤ → List (List ℚ)) (checkpointOf : String → ℤ)
    (extractionOf : ℕ → ℚ) (metrics : List MetricSpec) (s : String)
    (hs : s ∈ streams) :
    (sync streams fetch checkpointOf extractionOf metrics).updated_counts s = some 0 ∧
    ∀ metrics' : List MetricSpec,
      (sync streams fetch checkpointOf extractionOf metrics).updated_counts =
        (sync streams fetch checkpointOf extractionOf metrics').updated_counts := by
  constructor
  · exact foldl_update_zero s streams _ (Or.inl hs)
  · intro m'
    rfl

/-- Witness for `C10_updated_counts_zero` on a run that emits records. -/
theorem C10_updated_counts_zero_witness :
    (("aggregated_metric_history" : String) ∈ ["aggregated_metric_history"]) ∧
    ((sync ["aggregated_metric_history"] (fun _ _ => [[(1 : ℚ)]]) (fun _ => 0)
        (fun _ => 86400) [⟨"cpu", "q", "avg", "day", 60⟩]).updated_counts
        "aggregated_metric_history" = some 0 ∧
      ∀ metrics' : List MetricSpec,
        (sync ["aggregated_metric_history"] (fun _ _ => [[(1 : ℚ)]]) (fun _ => 0)
          (fun _ => 86400) [⟨"cpu", "q", "avg", "day", 60⟩]).updated_counts =
        (sync ["aggregated_metric_history"] (fun _ _ => [[(1 : ℚ)]]) (fun _ => 0)
          (fun _ => 86400) metrics').updated_counts) :=
  ⟨by simp,
    C10_updated_counts_zero ["aggregated_metric_history"] (fun _ _ => [[(1 : ℚ)]])
      (fun _ => 0) (fun _ => 86400) [⟨"cpu", "q", "avg", "day", 60⟩]
      "aggregated_metric_history" (by simp)⟩

/-! ### The `DATE_FORMAT` round trip (claim C8) -/

/-- A decimal digit character parses back to its value. -/
theorem digitVal_digitChar (k : ℤ) (h0 : 0 ≤ k) (h9 : k < 10) :
    digitVal (digitChar k) = some k := by
  interval_cases k <;> decide

/-- Two-digit zero-padded rendering parses back to the value. -/
theorem parse2_pad2 (x : ℤ) (h0 : 0 ≤ x) (h : x < 100) :
    parse2 (digitChar (x / 10)) (digitChar (x % 10)) = some x := by
  have h1 := digitVal_digitChar (x / 10) (by omega) (by omega)
  have h2 := digitVal_digitChar (x % 10) (by omega) (by omega)
  simp only [parse2, h1, h2, Option.bind_eq_bind, Option.some_bind]
  exact congrArg some (by omega)

/-- Four-digit rendering of a year in `[1000, 9999]` parses back to it. -/
theorem parse4_digits (y : ℤ) (h0 : 1000 ≤ y) (h : y ≤ 9999) :
    parse4 (digitChar (y / 1000)) (digitChar (y / 100 % 10)) (digitChar (y / 10 % 10))
      (digitChar (y % 10)) = some y := by
  have h1 := digitVal_digitChar (y / 1000) (by omega) (by omega)
  have h2 := digitVal_digitChar (y / 100 % 10) (by omega) (by omega)
  have h3 := digitVal_digitChar (y / 10 % 10) (by omega) (by omega)
  have h4 := digitVal_digitChar (y % 10) (by omega) (by omega)
  simp only [parse4, h1, h2, h3, h4, Option.bind_eq_bind, Option.some_bind]
  exact congrArg some (by omega)

set_option maxRecDepth 4000 in
/-- Exhaustive check of CPython's guess-and-correct month search for a
non-leap year: for every 0-based day of the year it returns a valid
month/day pair whose days-before-month prefix sums back to the input. -/
theorem find_month_day_correct_false : ∀ k : ℕ, k < 365 →
    1 ≤ (find_month_day false (k : ℤ)).1 ∧ (find_month_day false (k : ℤ)).1 ≤ 12 ∧
    1 ≤ (find_month_day false (k : ℤ)).2 ∧
    (find_month_day false (k : ℤ)).2 ≤ DAYS_IN_MONTH (find_month_day false (k : ℤ)).1 ∧
    DAYS_BEFORE_MONTH (find_month_day false (k : ℤ)).1 + (find_month_day false (k : ℤ)).2 =
      (k : ℤ) + 1 := by decide

set_option maxRecDepth 4000 in
/-- Exhaustive check of CPython's guess-and-correct month search for a leap
year. -/
theorem find_month_day_correct_true : ∀ k : ℕ, k < 366 →
    1 ≤ (find_month_day true (k : ℤ)).1 ∧ (find_month_day true (k : ℤ)).1 ≤ 12 ∧
    1 ≤ (find_month_day true (k : ℤ)).2 ∧
    (find_month_day true (k : ℤ)).2 ≤ DAYS_IN_MONTH (find_month_day true (k : ℤ)).1 +
      (if (find_month_day true (k : ℤ)).1 = 2 then 1 else 0) ∧
    DAYS_BEFORE_MONTH (find_month_day true (k : ℤ)).1 +
      (if 2 < (find_month_day true (k : ℤ)).1 then 1 else 0) +
      (find_month_day true (k : ℤ)).2 = (k : ℤ) + 1 := by decide

/-- The year produced by the 400/100/4/1-year decomposition of an ordinal in
`datetime`'s range is at most 9999. -/
theorem year_ub_flat (n a b c e r : ℤ) (h2 : n ≤ 3652059)
    (hb : 0 ≤ b) (hb4 : b ≤ 4) (hc : 0 ≤ c) (hc24 : c ≤ 24) (he : 0 ≤ e) (he4 : e ≤ 4)
    (hr : 0 ≤ r) (hr' : r < 365)
    (eflat : n - 1 = 146097 * a + 36524 * b + 1461 * c + 365 * e + r) :
    a * 400 + b * 100 + c * 4 + e + 1 ≤ 9999 := by
  have h146 : 146097 * a ≤ 3652058 := by linarith
  have ha24 : a ≤ 24 := by
    clear eflat h2 hb hb4 hc hc24 he he4 hr hr'
    omega
  by_cases hA : a ≤ 23
  · linarith
  · have haa : a = 24 := by omega
    subst haa
    have hbc : 36524 * b + 1461 * c + 365 * e + r ≤ 145730 := by linarith
    have hb3 : b ≤ 3 := by
      clear eflat h2 h146 ha24 hA
      omega
    by_cases hB : b ≤ 2
    · linarith
    · have hbb : b = 3 := by omega
      subst hbb
      have hce : 1461 * c + 365 * e + r ≤ 36158 := by linarith
      by_cases hC : c ≤ 23
      · linarith
      · have hcc : c = 24 := by omega
        subst hcc
        have hee : 365 * e + r ≤ 1094 := by linarith
        have he2 : e ≤ 2 := by
          clear eflat h2 h146 ha24 hA hbc hb3 hB hce hC
          omega
        linarith

/-- The `divmod` chain of `_ord2ymd`, verified against `_ymd2ord`:
given the quotients and remainders of the 400/100/4/1-year decomposition of
`n - 1`, the produced date is valid and `_ymd2ord` maps it back to `n`. -/
theorem ord2ymd_aux (n n400 r1 n100 r2 n4 r3 n1 r4 y m d : ℤ)
    (h1 : 1 ≤ n) (h2 : n ≤ 3652059)
    (e1 : n - 1 = 146097 * n400 + r1) (b1l : 0 ≤ r1) (b1u : r1 < 146097)
    (e2 : r1 = 36524 * n100 + r2) (b2l : 0 ≤ r2) (b2u : r2 < 36524)
    (e3 : r2 = 1461 * n4 + r3) (b3l : 0 ≤ r3) (b3u : r3 < 1461)
    (e4 : r3 = 365 * n1 + r4) (b4l : 0 ≤ r4) (b4u : r4 < 365)
    (hT : (if n1 = 4 ∨ n100 = 4 then
            (n400 * 400 + n100 * 100 + n4 * 4 + n1 + 1 - 1, 12, 31)
          else
            (n400 * 400 + n100 * 100 + n4 * 4 + n1 + 1,
              (find_month_day (decide (n1 = 3 ∧ (n4 ≠ 24 ∨ n100 = 3))) r4).1,
              (find_month_day (decide (n1 = 3 ∧ (n4 ≠ 24 ∨ n100 = 3))) r4).2)) =
        (y, m, d)) :
    ymd2ord y m d = n ∧ 1 ≤ y ∧ y ≤ 9999 ∧ (364878 ≤ n → 1000 ≤ y) ∧
    1 ≤ m ∧ m ≤ 12 ∧ 1 ≤ d ∧
    d ≤ DAYS_IN_MONTH m + (if m = 2 ∧ is_leap y then 1 else 0) := by
  have hdbm12 : DAYS_BEFORE_MONTH 12 = 334 := by decide
  have hdim12 : DAYS_IN_MONTH 12 = 31 := by decide
  -- flatten the chain, then drop it so later calls work on a small system
  have ha0 : 0 ≤ n400 := by omega
  have hb100 : 0 ≤ n100 ∧ n100 ≤ 4 := by omega
  have hb4 : 0 ≤ n4 ∧ n4 ≤ 24 := by omega
  have hbn1 : 0 ≤ n1 ∧ n1 ≤ 4 := by omega
  have hr40 : n1 = 4 → r4 = 0 := by omega
  have h424 : n1 = 4 → n4 ≤ 23 := by omega
  have hx4 : n100 = 4 → n4 = 0 ∧ n1 = 0 ∧ r4 = 0 := by omega
  have eflat : n - 1 = 146097 * n400 + 36524 * n100 + 1461 * n4 + 365 * n1 + r4 := by
    omega
  clear e1 e2 e3 e4 b1l b1u b2l b2u b3l b3u
  have hub : n400 * 400 + n100 * 100 + n4 * 4 + n1 + 1 ≤ 9999 :=
    year_ub_flat n n400 n100 n4 n1 r4 h2 hb100.1 hb100.2 hb4.1 hb4.2 hbn1.1 hbn1.2
      b4l b4u eflat
  by_cases hsp : n1 = 4 ∨ n100 = 4
  · rw [if_pos hsp] at hT
    simp only [Prod.mk.injEq] at hT
    obtain ⟨rfl, rfl, rfl⟩ := hT
    have hleap : is_leap (n400 * 400 + n100 * 100 + n4 * 4 + n1 + 1 - 1) = true := by
      simp only [is_leap, decide_eq_true_eq]
      omega
    refine ⟨?_, by omega, by omega, by omega, by norm_num, by norm_num, by norm_num, ?_⟩
    · simp only [ymd2ord, days_before_year, hdbm12, hleap, and_true]
      rw [if_pos (show (2 : ℤ) < 12 by norm_num)]
      have hq4 : (n400 * 400 + n100 * 100 + n4 * 4 + n1 + 1 - 1 - 1) / 4 =
          (n1 - 1) / 4 + (n400 * 100 + n100 * 25 + n4) := by
        rw [show n400 * 400 + n100 * 100 + n4 * 4 + n1 + 1 - 1 - 1 =
            (n1 - 1) + (n400 * 100 + n100 * 25 + n4) * 4 from by ring,
          Int.add_mul_ediv_right _ _ (by norm_num : (4 : ℤ) ≠ 0)]
      have hq100 : (n400 * 400 + n100 * 100 + n4 * 4 + n1 + 1 - 1 - 1) / 100 =
          (n4 * 4 + n1 - 1) / 100 + (n400 * 4 + n100) := by
        rw [show n400 * 400 + n100 * 100 + n4 * 4 + n1 + 1 - 1 - 1 =
            (n4 * 4 + n1 - 1) + (n400 * 4 + n100) * 100 from by ring,
          Int.add_mul_ediv_right _ _ (by norm_num : (100 : ℤ) ≠ 0)]
      have hq400 : (n400 * 400 + n100 * 100 + n4 * 4 + n1 + 1 - 1 - 1) / 400 =
          (n100 * 100 + n4 * 4 + n1 - 1) / 400 + n400 := by
        rw [show n400 * 400 + n100 * 100 + n4 * 4 + n1 + 1 - 1 - 1 =
            (n100 * 100 + n4 * 4 + n1 - 1) + n400 * 400 from by ring,
          Int.add_mul_ediv_right _ _ (by norm_num : (400 : ℤ) ≠ 0)]
      rw [hq4, hq100, hq400]
      clear hq4 hq100 hq400 hub hdbm12 hdim12 hleap h1 h2
      omega
    · rw [hdim12, if_neg (fun hc => absurd hc.1 (by norm_num))]
      norm_num
  · rw [if_neg hsp] at hT
    by_cases hlp : n1 = 3 ∧ (n4 ≠ 24 ∨ n100 = 3)
    · rw [decide_eq_true hlp] at hT
      simp only [Prod.mk.injEq] at hT
      obtain ⟨rfl, rfl, rfl⟩ := hT
      obtain ⟨hm1, hm2, hd1, hd2, hsum⟩ :=
        find_month_day_correct_true r4.toNat (by omega)
      rw [show ((r4.toNat : ℕ) : ℤ) = r4 from by omega] at hm1 hm2 hd1 hd2 hsum
      have hleap : is_leap (n400 * 400 + n100 * 100 + n4 * 4 + n1 + 1) = true := by
        simp only [is_leap, decide_eq_true_eq]
        omega
      refine ⟨?_, by omega, by omega, by omega, hm1, hm2, hd1, ?_⟩
      · simp only [ymd2ord, days_before_year, hleap, and_true]
        have hq4 : (n400 * 400 + n100 * 100 + n4 * 4 + n1 + 1 - 1) / 4 =
            n1 / 4 + (n400 * 100 + n100 * 25 + n4) := by
          rw [show n400 * 400 + n100 * 100 + n4 * 4 + n1 + 1 - 1 =
              n1 + (n400 * 100 + n100 * 25 + n4) * 4 from by ring,
            Int.add_mul_ediv_right _ _ (by norm_num : (4 : ℤ) ≠ 0)]
        have hq100 : (n400 * 400 + n100 * 100 + n4 * 4 + n1 + 1 - 1) / 100 =
            (n4 * 4 + n1) / 100 + (n400 * 4 + n100) := by
          rw [show n400 * 400 + n100 * 100 + n4 * 4 + n1 + 1 - 1 =
              (n4 * 4 + n1) + (n400 * 4 + n100) * 100 from by ring,
            Int.add_mul_ediv_right _ _ (by norm_num : (100 : ℤ) ≠ 0)]
        have hq400 : (n400 * 400 + n100 * 100 + n4 * 4 + n1 + 1 - 1) / 400 =
            (n100 * 100 + n4 * 4 + n1) / 400 + n400 := by
          rw [show n400 * 400 + n100 * 100 + n4 * 4 + n1 + 1 - 1 =
              (n100 * 100 + n4 * 4 + n1) + n400 * 400 from by ring,
            Int.add_mul_ediv_right _ _ (by norm_num : (400 : ℤ) ≠ 0)]
        rw [hq4, hq100, hq400]
        clear hq4 hq100 hq400 hub hdbm12 hdim12 hleap hm1 hm2 hd1 hd2 h1 h2 hr40 h424
        by_cases hgt : 2 < (find_month_day true r4).1
        · rw [if_pos hgt] at hsum
          rw [if_pos hgt]
          omega
        · rw [if_neg hgt] at hsum
          rw [if_neg hgt]
          omega
      · simp only [hleap, and_true]
        exact hd2
    · rw [decide_eq_false hlp] at hT
      simp only [Prod.mk.injEq] at hT
      obtain ⟨rfl, rfl, rfl⟩ := hT
      obtain ⟨hm1, hm2, hd1, hd2, hsum⟩ :=
        find_month_day_correct_false r4.toNat (by omega)
      rw [show ((r4.toNat : ℕ) : ℤ) = r4 from by omega] at hm1 hm2 hd1 hd2 hsum
      have hleap : is_leap (n400 * 400 + n100 * 100 + n4 * 4 + n1 + 1) = false := by
        simp only [is_leap]
        rw [decide_eq_false_iff_not]
        omega
      have hne : ∀ q : ℤ, ¬(q = 2 ∧ is_leap (n400 * 400 + n100 * 100 + n4 * 4 + n1 + 1)
          = true) := by
        intro q hc
        rw [hleap] at hc
        exact absurd hc.2 (by decide)
      have hne' : ¬(2 < (find_month_day false r4).1 ∧
          is_leap (n400 * 400 + n100 * 100 + n4 * 4 + n1 + 1) = true) := by
        intro hc
        rw [hleap] at hc
        exact absurd hc.2 (by decide)
      refine ⟨?_, by omega, by omega, by omega, hm1, hm2, hd1, ?_⟩
      · simp only [ymd2ord, days_before_year]
        rw [if_neg hne']
        have hq4 : (n400 * 400 + n100 * 100 + n4 * 4 + n1 + 1 - 1) / 4 =
            n1 / 4 + (n400 * 100 + n100 * 25 + n4) := by
          rw [show n400 * 400 + n100 * 100 + n4 * 4 + n1 + 1 - 1 =
              n1 + (n400 * 100 + n100 * 25 + n4) * 4 from by ring,
            Int.add_mul_ediv_right _ _ (by norm_num : (4 : ℤ) ≠ 0)]
        have hq100 : (n400 * 400 + n100 * 100 + n4 * 4 + n1 + 1 - 1) / 100 =
            (n4 * 4 + n1) / 100 + (n400 * 4 + n100) := by
          rw [show n400 * 400 + n100 * 100 + n4 * 4 + n1 + 1 - 1 =
              (n4 * 4 + n1) + (n400 * 4 + n100) * 100 from by ring,
            Int.add_mul_ediv_right _ _ (by norm_num : (100 : ℤ) ≠ 0)]
        have hq400 : (n400 * 400 + n100 * 100 + n4 * 4 + n1 + 1 - 1) / 400 =
            (n100 * 100 + n4 * 4 + n1) / 400 + n400 := by
          rw [show n400 * 400 + n100 * 100 + n4 * 4 + n1 + 1 - 1 =
              (n100 * 100 + n4 * 4 + n1) + n400 * 400 from by ring,
            Int.add_mul_ediv_right _ _ (by norm_num : (400 : ℤ) ≠ 0)]
        rw [hq4, hq100, hq400]
        clear hq4 hq100 hq400 hub hdbm12 hdim12 hleap hne hne' hm1 hm2 hd1 hd2 h1 h2
          hr40 h424
        omega
      · split <;> omega

/-- The map `_ymd2ord` is a left inverse of `_ord2ymd` on `datetime`'s ordinal range,
and `_ord2ymd` produces a valid Gregorian date whose year lies in
`[1, 9999]` (and in `[1000, 9999]` from ordinal 364878, i.e. 1000-01-01,
onward). -/
theorem ymd2ord_ord2ymd (n : ℤ) (h1 : 1 ≤ n) (h2 : n ≤ 3652059) :
    ymd2ord (ord2ymd n).1 (ord2ymd n).2.1 (ord2ymd n).2.2 = n ∧
    1 ≤ (ord2ymd n).1 ∧ (ord2ymd n).1 ≤ 9999 ∧
    (364878 ≤ n → 1000 ≤ (ord2ymd n).1) ∧
    1 ≤ (ord2ymd n).2.1 ∧ (ord2ymd n).2.1 ≤ 12 ∧ 1 ≤ (ord2ymd n).2.2 ∧
    (ord2ymd n).2.2 ≤ DAYS_IN_MONTH (ord2ymd n).2.1 +
      (if (ord2ymd n).2.1 = 2 ∧ is_leap (ord2ymd n).1 then 1 else 0) :=
  ord2ymd_aux n ((n - 1) / 146097) ((n - 1) % 146097)
    ((n - 1) % 146097 / 36524) ((n - 1) % 146097 % 36524)
    ((n - 1) % 146097 % 36524 / 1461) ((n - 1) % 146097 % 36524 % 1461)
    ((n - 1) % 146097 % 36524 % 1461 / 365) ((n - 1) % 146097 % 36524 % 1461 % 365)
    (ord2ymd n).1 (ord2ymd n).2.1 (ord2ymd n).2.2 h1 h2
    (by omega) (by omega) (by omega) (by omega) (by omega) (by omega)
    (by omega) (by omega) (by omega) (by omega) (by omega) (by omega) rfl

/-- Evaluating `parseTs` on a string of the exact `YYYY-MM-DDTHH:MM:SSZ` layout. -/
theorem parseTs_layout (a b c d e f g h i j k l m o : Char) :
    parseTs ⟨[a, b, c, d, '-', e, f, '-', g, h, 'T', i, j, ':', k, l, ':', m, o, 'Z']⟩ =
      (do
        let y ← parse4 a b c d
        let mo2 ← parse2 e f
        let dy ← parse2 g h
        let hh ← parse2 i j
        let mi ← parse2 k l
        let ss ← parse2 m o
        if 1 ≤ y ∧ y ≤ 9999 ∧ 1 ≤ mo2 ∧ mo2 ≤ 12 ∧
            1 ≤ dy ∧ dy ≤ DAYS_IN_MONTH mo2 + (if mo2 = 2 ∧ is_leap y then 1 else 0) ∧
            0 ≤ hh ∧ hh < 24 ∧ 0 ≤ mi ∧ mi < 60 ∧ 0 ≤ ss ∧ ss < 60 then
          some ((ymd2ord y mo2 dy - EPOCH_ORD) * 86400 + hh * 3600 + mi * 60 + ss)
        else none) := rfl

/-- No month has more than 31 days in the CPython table. -/
theorem DAYS_IN_MONTH_le (m : ℤ) : DAYS_IN_MONTH m ≤ 31 := by
  rw [DAYS_IN_MONTH]
  generalize m.toNat - 1 = i
  by_cases hi : i < 12
  · interval_cases i <;> decide
  · rw [List.getD_eq_default]
    · decide
    · simp only [List.length_cons, List.length_nil]
      omega

/-- C8 (amended): for every whole-second epoch timestamp whose UTC calendar
year lies in `[1000, 9999]` (i.e. `-30610224000 ≤ ts ≤ 253402300799`),
formatting `ts` as the `DATE_FORMAT` bookmark string — as `query_metric`
does when advancing the bookmark — and parsing that string back — as
`query_metric` does when resolving the bookmark — returns exactly `ts`, so a
resumed run restarts at exactly the persisted window end.  Outside that
range the round trip is impossible: `datetime` cannot represent years
beyond 9999 (`C8_counterexample`), and glibc `strftime` renders years below
1000 without zero padding, which the four-digit `%Y` of `strptime` rejects. -/
theorem C8_format_parse_roundtrip (ts : ℤ)
    (hlb : -30610224000 ≤ ts) (hub : ts ≤ 253402300799) :
    (formatTs ts).bind parseTs = some ts := by
  have hN1 : (1 : ℤ) ≤ 719163 + ts / 86400 := by omega
  have hN2 : 719163 + ts / 86400 ≤ 3652059 := by omega
  have hN3 : (364878 : ℤ) ≤ 719163 + ts / 86400 := by omega
  obtain ⟨hord, hy1, hy2, hy3, hm1, hm2, hd1, hd2⟩ :=
    ymd2ord_ord2ymd (719163 + ts / 86400) hN1 hN2
  have hy1000 : 1000 ≤ (ord2ymd (719163 + ts / 86400)).1 := hy3 hN3
  have hdim : DAYS_IN_MONTH (ord2ymd (719163 + ts / 86400)).2.1 ≤ 31 :=
    DAYS_IN_MONTH_le _
  simp only [formatTs, utcfromtimestamp, EPOCH_ORD]
  rw [if_pos ⟨hN1, hN2⟩]
  simp only [Option.map_some', Option.some_bind, formatCivil]
  have hfy : formatYear (ord2ymd (719163 + ts / 86400)).1 =
      [digitChar ((ord2ymd (719163 + ts / 86400)).1 / 1000),
        digitChar ((ord2ymd (719163 + ts / 86400)).1 / 100 % 10),
        digitChar ((ord2ymd (719163 + ts / 86400)).1 / 10 % 10),
        digitChar ((ord2ymd (719163 + ts / 86400)).1 % 10)] := by
    rw [formatYear, if_neg (by omega), if_neg (by omega), if_neg (by omega)]
  rw [hfy]
  simp only [pad2, List.cons_append, List.nil_append]
  rw [parseTs_layout,
    parse4_digits _ hy1000 hy2,
    parse2_pad2 _ (by omega) (by omega),
    parse2_pad2 _ (by omega) (by omega),
    parse2_pad2 _ (by omega) (by omega),
    parse2_pad2 _ (by omega) (by omega),
    parse2_pad2 _ (by omega) (by omega)]
  simp only [Option.bind_eq_bind, Option.some_bind]
  rw [if_pos ⟨by omega, by omega, hm1, hm2, hd1, hd2, by omega, by omega, by omega,
    by omega, by omega, by omega⟩]
  rw [EPOCH_ORD, hord]
  exact congrArg some (by omega)

/-- C8: as frozen, the claim quantifies over *every* whole-second epoch
timestamp.  At `ts = 253402300800` (0001-01-01 of year 10000)
`datetime.utcfromtimestamp` raises `ValueError: year 10000 is out of range`,
so no bookmark string exists and the round trip cannot return `ts`. -/
theorem C8_counterexample :
    (formatTs 253402300800).bind parseTs = none ∧
    ¬ ((formatTs 253402300800).bind parseTs = some 253402300800) := by
  constructor
  · rfl
  · intro h
    rw [show (formatTs 253402300800).bind parseTs = none from rfl] at h
    exact Option.noConfusion h

/-- Witness for `C8_format_parse_roundtrip` at the epoch itself. -/
theorem C8_format_parse_roundtrip_witness :
    ((-30610224000 : ℤ) ≤ 0 ∧ (0 : ℤ) ≤ 253402300799) ∧
    (formatTs 0).bind parseTs = some 0 :=
  ⟨⟨by decide, by decide⟩, C8_format_parse_roundtrip 0 (by decide) (by decide)⟩

end TapPrometheus
